import Mathlib

/-!
# Verification of the specsheet check-execution engine

A shallow embedding, in Lean 4, of the parts of the specsheet source that the
spec's testable properties talk about:

* the `Exec` adapter-cache cell and the `Executor` (`spec_exec/src/exec.rs`,
  `spec_exec/src/executor.rs`);
* `CheckResult` and the overall pass computation of `run_base_check`
  (`spec_checks/src/check.rs`, `src/set.rs`);
* the HTTP redirect validator and `HttpCheck::read`
  (`spec_checks/src/network/http.rs`);
* the TAP output interpreter (`spec_checks/src/command/tap.rs`);
* the failure-correlation table (`spec_analysis/src/table.rs`);
* the tag/type filters (`src/filter.rs`);
* value rewrites (`spec_checks/src/read.rs`);
* the port-number reader (`spec_checks/src/common.rs`).

Strings are modelled as `List Char` (`Str`), filesystem paths as lists of
path components (`List Str`, mirroring `std::path::Path` component-wise
prefix semantics).  Rust panics (`panic!`, `unreachable!`, `.unwrap()` on
a value that can be `None`) are modelled by functions returning `Option`,
with `none` denoting the panic.  Machine integers that only ever get
compared (TOML `i64`, HTTP status `i32`) are modelled as `Int`; where a
narrowing conversion matters it is written out explicitly.
-/

namespace Specsheet

/-- Strings, as lists of characters. -/
abbrev Str := List Char

/-- Filesystem paths, as lists of components
(`std::path::Path` prefix stripping works component-wise). -/
abbrev FsPath := List Str

/-! ## The TOML value tree (`toml::Value`, as consumed by `spec_checks/src/read.rs`)

The `Float` and `Datetime` variants of `toml::Value` are omitted: no code
relevant to the claims inspects them, and floating point is out of scope. -/

/-- A dynamically-typed document value (`toml::Value`). -/
inductive Toml where
  | str (s : Str)
  | int (n : Int)
  | boolean (b : Bool)
  | array (xs : List Toml)
  | table (kvs : List (String × Toml))

/-- `toml::Value::get`: looks a key up in a table; `None` for non-tables. -/
def Toml.get (v : Toml) (key : String) : Option Toml :=
  match v with
  | .table kvs => (kvs.find? (fun kv => kv.1 = key)).map (·.2)
  | _ => none

/-- `toml::Value::as_integer`. -/
def Toml.as_integer : Toml → Option Int
  | .int n => some n
  | _ => none

/-- `toml::Value::as_str`. -/
def Toml.as_str : Toml → Option Str
  | .str s => some s
  | _ => none

/-- `toml::Value::as_bool`. -/
def Toml.as_bool : Toml → Option Bool
  | .boolean b => some b
  | _ => none

/-- `toml::Value::as_table` (just the table contents). -/
def Toml.as_table : Toml → Option (List (String × Toml))
  | .table kvs => some kvs
  | _ => none

/-! ## Read errors (`spec_checks/src/read.rs`)

`InvalidValue` carries a `Box<dyn Display>` "ordinance" in the source; here
the ordinance is kept as an opaque description string. -/

/-- `ReadError`: what can go wrong reading a check from a TOML value. -/
inductive ReadError where
  | MissingParameter (parameter_name : String)
  | UnknownParameter (parameter_name : String)
  | InvalidValue (parameter_name : String) (given_value : Toml) (ordinance : String)
  | Conflict (parameter_name : String) (other_parameter_name : String)
      (specific_value : Option Toml)
  | AliasClash (parameter_name : String) (other_parameter_name : String)

/-- `ReadError::invalid`. -/
def ReadError.invalid (parameter_name : String) (given_value : Toml)
    (ordinance : String) : ReadError :=
  .InvalidValue parameter_name given_value ordinance

/-- `ValueExtras::get_or_read_error`. -/
def Toml.get_or_read_error (v : Toml) (parameter_name : String) :
    Except ReadError Toml :=
  match v.get parameter_name with
  | some val => .ok val
  | none => .error (.MissingParameter parameter_name)

/-- `ValueExtras::number_or_error`. -/
def Toml.number_or_error (v : Toml) (parameter_name : String) :
    Except ReadError Int :=
  match v.as_integer with
  | some s => .ok s
  | none => .error (.invalid parameter_name v "it must be an integer")

/-- `ValueExtras::boolean_or_error`. -/
def Toml.boolean_or_error (v : Toml) (parameter_name : String) :
    Except ReadError Bool :=
  match v.as_bool with
  | some s => .ok s
  | none => .error (.invalid parameter_name v "it must be a boolean")

/-- `ValueExtras::string_or_error`. -/
def Toml.string_or_error (v : Toml) (parameter_name : String) :
    Except ReadError Str :=
  match v.as_str with
  | some s => .ok s
  | none => .error (.invalid parameter_name v "it must be a string")

/-- `ValueExtras::string_map_or_read_error`, returning the key/value pairs. -/
def Toml.string_map_or_read_error (v : Toml) (parameter_name : String) :
    Except ReadError (List (String × Str)) :=
  match v.as_table with
  | none => .error (.invalid parameter_name v "it must be a map of strings to strings")
  | some kvs => go kvs
where
  go : List (String × Toml) → Except ReadError (List (String × Str))
  | [] => .ok []
  | (k, val) :: rest =>
    match val.string_or_error parameter_name with
    | .error e => .error e
    | .ok s => (go rest).map (fun m => (k, s) :: m)

/-- `ValueExtras::ensure_only_keys`.  The source `panic!`s when `self` is not
a table; `none` models that panic. -/
def Toml.ensure_only_keys (v : Toml) (keys : List String) :
    Option (Except ReadError Unit) :=
  match v.as_table with
  | some t =>
    match t.find? (fun kv => ¬ keys.any (fun k => k = kv.1)) with
    | some invalid_param => some (.error (.UnknownParameter invalid_param.1))
    | none => some (.ok ())
  | none => none

/-! ## Port numbers (`spec_checks/src/common.rs`) -/

/-- `PortNumber`: a `u16` port, held as the integer it was read from. -/
structure PortNumber where
  port : Nat
deriving DecidableEq, Repr

/-- `PortNumber::read`: read the `port` key from a check's table.
`try_into::<u16>()` succeeds exactly on `0 ≤ n < 65536`; a port of zero is
then rejected separately. -/
def PortNumber.read (table : Toml) : Except ReadError PortNumber :=
  match table.get_or_read_error "port" with
  | .error e => .error e
  | .ok port_value =>
    match port_value.number_or_error "port" with
    | .error e => .error e
    | .ok n =>
      if 0 ≤ n ∧ n < 65536 then
        -- `try_into::<u16>()` succeeded
        if n > 0 then
          .ok ⟨n.toNat⟩
        else
          .error (.invalid "port" port_value "it must be between 1 and 65535")
      else
        .error (.invalid "port" port_value "it must be between 1 and 65535")

/-! ## The executor (`spec_exec/src/executor.rs`)

Per-line timestamps and wall-clock runtimes are real-time data and are not
modelled; `spawnCount` instruments the number of calls to `run_and_store`
(each of which spawns at most one external process), so that "at most one
external process runs per invocation" is expressible. The behaviour of the
operating system — what happens when a command is spawned — is the `world`
field, fixed for the lifetime of the executor. -/

/-- A command line (`std::process::Command`), kept abstract as its text. -/
abbrev Cmd := Str

/-- `ExitReason`: the reason a process exited. -/
inductive ExitReason where
  | Status (code : Int)
  | Signal (signal : Int)
  | Unknown
  | Overridden

/-- An opaque `std::io::Error`, carried by message. -/
structure IoError where
  message : Str

/-- `ExecError`: something that can go wrong while running a program. -/
inductive ExecError where
  | Spawn (e : IoError)
  | Stdout (e : IoError)
  | Wait (e : IoError)
  | StatusMismatch (r : ExitReason)

/-- `RanCommand`: the results of a command that has been executed
(timestamps and runtime omitted). -/
structure RanCommand where
  invocation : Str
  exit_reason : ExitReason
  stdout_lines : List Str
  stderr_lines : List Str

/-- `Executor`: runs commands and records them in a history. -/
structure Executor where
  /-- What the operating system does when a command is spawned. -/
  world : Cmd → Except ExecError RanCommand
  /-- Instrumentation: how many times `run_and_store` has been called. -/
  spawnCount : Nat
  /-- `command_history`: the commands that have been run, in order. -/
  command_history : List RanCommand

/-- `Executor::run_and_store`: spawn the command, capture its output, and on
success store the `RanCommand` in the history. -/
def Executor.run_and_store (ex : Executor) (cmd : Cmd) :
    Except ExecError RanCommand × Executor :=
  match ex.world cmd with
  | .ok rc =>
    (.ok rc, { ex with spawnCount := ex.spawnCount + 1,
                       command_history := ex.command_history ++ [rc] })
  | .error e =>
    (.error e, { ex with spawnCount := ex.spawnCount + 1 })

/-! ## The Exec adapter-cache cell (`spec_exec/src/exec.rs`)

`Rc`-sharing becomes plain value equality; the `CommandOutput` trait's
`interpret_command_output` becomes an explicit `interpret` function
parameter.  `run` additionally returns the cell's state after the call
(the source mutates it behind a `Mutex`) and the executor.  `none` models
the `unreachable!` panics. -/

/-- `State<T>`: the internal state of a process-running Exec. -/
inductive ExecState (T : Type) where
  | Primed (cmd : Cmd)
  | Running
  | Completed (rc : RanCommand) (t : Option T)
  | Attempted (err : ExecError)

/-- `Exec<T>`: either predetermined output, or a stateful invocation. -/
inductive Exec (T : Type) where
  | Predetermined (name : String) (object : T)
  | Invocation (state : ExecState T)

/-- `Exec::run`: run the loaded command, producing a shared output value or a
shared error.  Returns the result, the new cell state, and the executor. -/
def Exec.run {T : Type} (interpret : List Str → ExitReason → Except ExecError T)
    (e : Exec T) (ex : Executor) :
    Option (Except ExecError T × Exec T × Executor) :=
  match e with
  | .Predetermined name object => some (.ok object, .Predetermined name object, ex)
  | .Invocation state =>
    match state with
    | .Running => none             -- unreachable!("State still running")
    | .Completed rc (some t) => some (.ok t, .Invocation (.Completed rc (some t)), ex)
    | .Completed _ none => none    -- unreachable!("No output value")
    | .Attempted err => some (.error err, .Invocation (.Attempted err), ex)
    | .Primed cmd =>
      match ex.run_and_store cmd with
      | (.ok ran_command, ex') =>
        match interpret ran_command.stdout_lines ran_command.exit_reason with
        | .ok t =>
          some (.ok t, .Invocation (.Completed ran_command (some t)), ex')
        | .error err =>
          some (.error err, .Invocation (.Attempted err), ex')
      | (.error err, ex') =>
        some (.error err, .Invocation (.Attempted err), ex')

/-! ## Check results (`spec_checks/src/check.rs`) and
`run_base_check` (`src/set.rs`) -/

/-- `CheckResult<PASS, FAIL>`: the result of running one check part. -/
inductive CheckResult (P F : Type) where
  | Passed (pass : P)
  | Failed (fail : F)
  | CommandError (err : ExecError)

/-- `CheckResult::passed`: whether this sub-result passed. -/
def CheckResult.passed {P F : Type} : CheckResult P F → Bool
  | .Passed _ => true
  | _ => false

/-- `ResultMessage`: a rendered sub-result, as stored in a `CheckOutput`. -/
inductive ResultMessage where
  | Passed (message : String)
  | Failed (message : String)
  | Error (message : String)

/-- The output of one whole check, as assembled by `run_base_check`. -/
structure CheckOutput where
  passed : Bool
  results : List ResultMessage
  message : String

/-- The `results_to_output!` macro body of `run_base_check` (`src/set.rs`):
renders each sub-result and reports the check as passed iff all sub-results
passed.  The `Display` renderings of the check and of the pass/fail reasons
are abstracted as function parameters. -/
def results_to_output {P F : Type}
    (displayPass : P → String) (displayFail : F → String)
    (displayErr : ExecError → String) (checkMessage : String)
    (results : List (CheckResult P F)) : CheckOutput :=
  { passed := results.all CheckResult.passed
  , results := results.map (fun e =>
      match e with
      | .Passed pass => .Passed (displayPass pass)
      | .Failed fail => .Failed (displayFail fail)
      | .CommandError err => .Error (displayErr err))
  , message := checkMessage }

/-! ## Tag and type filters (`src/filter.rs`) and the filtering step of
`CheckSet` loading (`src/set.rs`) -/

/-- `TagsFilter`: the user's allow (`--tags`) and deny (`--skip-tags`)
tag sets. -/
structure TagsFilter where
  tags : List String
  skip_tags : List String

/-- `TypesFilter`: the user's allow (`--types`) and deny (`--skip-types`)
check-type sets. -/
structure TypesFilter where
  types : List String
  skip_types : List String

/-- `TagsFilter::should_include_tags`: whether to load a check with the
given set of tags. -/
def TagsFilter.should_include_tags (f : TagsFilter) (tags : List String) : Bool :=
  if f.skip_tags.any (fun t1 => tags.any (fun t2 => t1 = t2)) then
    false
  else if f.tags.isEmpty then
    true
  else
    f.tags.any (fun t1 => tags.any (fun t2 => t1 = t2))

/-- `TypesFilter::should_include_type`: whether to load checks of the given
type. -/
def TypesFilter.should_include_type (f : TypesFilter) (ct : String) : Bool :=
  if f.skip_types.any (fun t => t = ct) then
    false
  else if f.types.isEmpty then
    true
  else
    f.types.any (fun t => t = ct)

/-- The tag-related filters of a `Filter` (its `order` field does not affect
inclusion). -/
structure Filter where
  tags : TagsFilter
  types : TypesFilter

/-- The `tags` key of a check entry: one tag, many tags, or none. -/
inductive Tags where
  | One (tag : String)
  | Many (tags : List String)

/-- The list of tags declared by a check entry (the slice passed to
`should_include_tags` at each arm of the `match` in `src/set.rs`). -/
def tagList : Option Tags → List String
  | some (.One tag) => [tag]
  | some (.Many tags) => tags
  | none => []

/-- The filtering step of `CheckSet::load_from_document` (`src/set.rs`): an
entry under check-type key `check_key` with tags `tags` survives into the
set (reaches per-check parsing) iff neither the type filter nor the tags
filter skips it. -/
def check_entry_survives_filter (filter : Filter) (check_key : String)
    (tags : Option Tags) : Bool :=
  if ¬ filter.types.should_include_type check_key then
    false
  else
    let tag_ok := match tags with
      | some (.One tag) => filter.tags.should_include_tags [tag]
      | some (.Many tags) => filter.tags.should_include_tags tags
      | none => filter.tags.should_include_tags []
    if ¬ (tag_ok = true) then false else true

/-! ## The DNS check (`spec_checks/src/network/dns.rs`)

Only the evaluation step is embedded: `check` receives the result of
`dig.get_values(executor, &self.request)` — either the list of answer
values from the adapter or a shared exec error. -/

/-- `Nameserver`: which nameserver a DNS request uses. -/
inductive Nameserver where
  | DefaultResolver
  | ByIP (addr : Str)

/-- `Request`: a concrete DNS query (the invocation key). -/
structure DnsRequest where
  nameserver : Nameserver
  domain : Str
  rtype : Str

/-- `Condition`: what the DNS check expects of the record. -/
inductive DnsCondition where
  | Present (value : Str)
  | Missing

/-- The **dns check** (`DnsCheck`). -/
structure DnsCheck where
  request : DnsRequest
  condition : DnsCondition

/-- `Pass` for the DNS check. -/
inductive DnsPass where
  | DnsSuccess
  | RecordPresent
  | RecordMissing

/-- `Fail` for the DNS check. -/
inductive DnsFail where
  | DnsFailure
  | NoSuchDomain
  | RecordMissing
  | RecordPresent
  | RecordDifferent (got_values : List Str)

/-- `DnsCheck::check` (the `RunCheck` impl): evaluate the adapter's answer
list against the check's condition. -/
def DnsCheck.check (c : DnsCheck) (got : Except ExecError (List Str)) :
    List (CheckResult DnsPass DnsFail) :=
  match got with
  | .error e => [.CommandError e]
  | .ok results =>
    match c.condition, results.isEmpty with
    | .Present expected_value, false =>
      if results.any (fun a => a = expected_value) then
        [.Passed .RecordPresent]
      else
        [.Failed (.RecordDifferent results)]
    | .Present _, true => [.Failed .RecordMissing]
    | .Missing, false => [.Failed .RecordPresent]
    | .Missing, true => [.Passed .RecordMissing]

/-! ## Value rewrites (`spec_checks/src/read.rs`, `Rewrites`)

`Rewrites::path` takes paths through `PathBuf::strip_prefix`/`push`, which
work component-wise, so paths here are `FsPath` (lists of components) and
the home directory of `shellexpand::tilde` is an explicit parameter.
`Rewrites::url` and `Rewrites::interface` work on plain strings. -/

/-- `Rewrite`: one rewrite rule. -/
inductive Rewrite where
  | Path (source target : FsPath)
  | Interface (source target : Str)
  | Url (source target : Str)

/-- `Rewrites`: the rule list, plus whether a leading `~` is expanded. -/
structure Rewrites where
  rules : List Rewrite
  expand_home : Bool

/-- `shellexpand::tilde`: replace a leading `~` component with the current
user's home directory. -/
def expand_tilde (home : FsPath) : FsPath → FsPath
  | [] => []
  | c :: rest => if c = ['~'] then home ++ rest else c :: rest

/-- The shape shared by the loops of `Rewrites::path`
(`strip_prefix` + `push`) and `Rewrites::url` (`starts_with` + `+`): scan
the (source, target) rules in order and apply the first rule whose source
is a prefix, replacing that prefix with the target. -/
def prefixRewrite {α : Type} [DecidableEq α] :
    List (List α × List α) → List α → List α
  | [], x => x
  | (source, target) :: rest, x =>
    if source.isPrefixOf x then target ++ x.drop source.length
    else prefixRewrite rest x

/-- The loop of `Rewrites::interface`: apply the first rule whose source
equals the input. -/
def exactRewrite : List (Str × Str) → Str → Str
  | [], x => x
  | (source, target) :: rest, x =>
    if source = x then target else exactRewrite rest x

/-- The `Rewrite::Path` rules, in order (the other kinds are skipped by the
`if let` in the loop). -/
def Rewrites.pathRules (rw : Rewrites) : List (FsPath × FsPath) :=
  rw.rules.filterMap fun r => match r with
    | .Path source target => some (source, target)
    | _ => none

/-- The `Rewrite::Interface` rules, in order. -/
def Rewrites.interfaceRules (rw : Rewrites) : List (Str × Str) :=
  rw.rules.filterMap fun r => match r with
    | .Interface source target => some (source, target)
    | _ => none

/-- The `Rewrite::Url` rules, in order. -/
def Rewrites.urlRules (rw : Rewrites) : List (Str × Str) :=
  rw.rules.filterMap fun r => match r with
    | .Url source target => some (source, target)
    | _ => none

/-- `Rewrites::path`: tilde-expand (when enabled), then apply the first
matching `Path` rule. -/
def Rewrites.path (home : FsPath) (rw : Rewrites) (p : FsPath) : FsPath :=
  let pb := if rw.expand_home then expand_tilde home p else p
  prefixRewrite rw.pathRules pb

/-- `Rewrites::interface`: apply the first `Interface` rule equal to the
input. -/
def Rewrites.interface (rw : Rewrites) (s : Str) : Str :=
  exactRewrite rw.interfaceRules s

/-- `Rewrites::url`: apply the first `Url` rule prefixing the input. -/
def Rewrites.url (rw : Rewrites) (u : Str) : Str :=
  prefixRewrite rw.urlRules u

/-- "No overlapping rules" for prefix rules: no rule's output
(`target ++ anything`) is itself subject to any rule; equivalently, every
target is prefix-incomparable with every source. -/
def NoOverlapPairs {α : Type} (rules : List (List α × List α)) : Prop :=
  ∀ ft ∈ rules, ∀ ft' ∈ rules, ¬ ft'.1 <+: ft.2 ∧ ¬ ft.2 <+: ft'.1

instance {α : Type} [DecidableEq α] (rules : List (List α × List α)) :
    Decidable (NoOverlapPairs rules) := by
  unfold NoOverlapPairs; infer_instance

/-- "No overlapping rules" for the interface rules: no rule's output is
itself the source of any rule. -/
def NoOverlapExact (rules : List (Str × Str)) : Prop :=
  ∀ ft ∈ rules, ∀ ft' ∈ rules, ft.2 ≠ ft'.1

instance (rules : List (Str × Str)) : Decidable (NoOverlapExact rules) := by
  unfold NoOverlapExact; infer_instance

/-- When tilde expansion is enabled, "no rule's output is subject to any
rule" also covers the tilde-expansion step of the `Path` rule kind: no
`Path` target may begin with a `~` component. -/
def NoTildeTargets (rules : List (FsPath × FsPath)) : Prop :=
  ∀ ft ∈ rules, ft.2.head? ≠ some ['~']

instance (rules : List (FsPath × FsPath)) : Decidable (NoTildeTargets rules) := by
  unfold NoTildeTargets; infer_instance

/-! ## Contents matchers (`spec_checks/src/contents.rs`)

Only the reading step is embedded (the HTTP check's `body` key goes through
it); regex evaluation itself is not needed by any claim. -/

/-- `ContentsMatcher`: a predicate over some obtained string. -/
inductive ContentsMatcher where
  | LineRegex (regex : Str) (matchesFlag : Bool)
  | StringMatch (string : Str) (matchesFlag : Bool)
  | FileMatch (path : Str)
  | ShouldBeEmpty
  | ShouldBeNonEmpty

/-- `ContentsMatcher::read`.  The source `panic!`s when `matches` is
combined with `file` or `empty`, and when `empty` is not a boolean;
`none` models those panics (and the non-table panic of
`ensure_only_keys`). -/
def ContentsMatcher.read (parameter_name : String) (table : Toml) :
    Option (Except ReadError ContentsMatcher) :=
  match table.as_table with
  | none => some (.error (.invalid parameter_name table "it must be a table"))
  | some _ =>
    match table.ensure_only_keys ["regex", "string", "file", "empty", "matches"] with
    | none => none
    | some (.error e) => some (.error e)
    | some (.ok ()) =>
      match (match table.get "matches" with
             | some m => (m.boolean_or_error "matches").map some
             | none => .ok none : Except ReadError (Option Bool)) with
      | .error e => some (.error e)
      | .ok matchesOpt =>
        let matchesFlag := matchesOpt.getD true
        match table.get "regex" with
        | some regex_value =>
          match regex_value.string_or_error "regex" with
          | .error e => some (.error e)
          | .ok regex =>
            if regex.isEmpty then
              some (.error (.invalid parameter_name regex_value "Empty regex"))
            else
              some (.ok (.LineRegex regex matchesFlag))
        | none =>
        match table.get "string" with
        | some string_value =>
          match string_value.string_or_error "string" with
          | .error e => some (.error e)
          | .ok string =>
            if string.isEmpty then
              some (.error (.invalid parameter_name string_value "Empty string"))
            else
              some (.ok (.StringMatch string matchesFlag))
        | none =>
        match table.get "file" with
        | some file_value =>
          match file_value.string_or_error "file" with
          | .error e => some (.error e)
          | .ok path =>
            if (table.get "matches").isSome then
              none  -- panic!("Can't use matches with file")
            else
              some (.ok (.FileMatch path))
        | none =>
        match table.get "empty" with
        | some empty_value =>
          if (table.get "matches").isSome then
            none  -- panic!("Can't use matches with empty")
          else
            match empty_value with
            | .boolean true => some (.ok .ShouldBeEmpty)
            | .boolean false => some (.ok .ShouldBeNonEmpty)
            | _ => none  -- panic!("booleans??")
        | none =>
          some (.error (.invalid parameter_name table "No conditions"))

/-- `contents::Pass`. -/
inductive ContentsPass where
  | OutputMatchesRegex
  | OutputRegexMismatch
  | OutputMatchesString
  | OutputStringMismatch
  | OutputMatchesFile
  | OutputEmpty
  | OutputNonEmpty

/-- `contents::Fail` (error payloads kept as opaque strings). -/
inductive ContentsFail where
  | InvalidRegex (err : Str)
  | OutputRegexMismatch (got : Str)
  | OutputMatchesRegex (got : Str)
  | OutputStringMismatch (got : Str)
  | OutputMatchesString (got : Str)
  | OutputFileMismatch (got expected : Str)
  | Io (err : Str)

/-! ## The HTTP check (`spec_checks/src/network/http.rs`) -/

/-- `ContentTypeCheck`: a well-known class token or a literal media type. -/
inductive ContentTypeCheck where
  | Class (class_name : Str)
  | MimeType (mt : Str)

/-- The well-known content-type class tokens accepted by
`ContentTypeCheck::read`. -/
def contentTypeClasses : List Str :=
  ["ATOM", "CSS", "EOT", "GIF", "HTML", "ICO", "JPEG", "JS", "JSON",
   "OTF", "PDF", "PNG", "SVG", "TTF", "WOFF", "WOFF2", "XML", "ZIP",
   "WEBP", "FLIF", "TXT", "JSONFEED"].map String.toList

/-- `RequestParams`: the URL plus extra request headers. -/
structure RequestParams where
  url : Str
  extra_headers : List (String × Str)

/-- `HeaderConditions`: the header-related predicates of an HTTP check. -/
structure HeaderConditions where
  content_type : Option ContentTypeCheck
  redirect_to : Option Str
  server : Option Str
  encoding : Option Str
  also : List (String × Str)

/-- The **http check** (`HttpCheck`). -/
structure HttpCheck where
  request : RequestParams
  status : Option Int
  headers : HeaderConditions
  body : Option ContentsMatcher

/-- `Pass` for the HTTP check. -/
inductive HttpPass where
  | HttpSucceeded
  | StatusMatch
  | ContentTypeMatch
  | RedirectMatch
  | ServerMatch
  | EncodingMatch
  | HeaderMatch (header : String)
  | ContentsPass (pass : ContentsPass)

/-- `Fail` for the HTTP check. -/
inductive HttpFail where
  | HttpFailed
  | StatusMismatch (got : Int)
  | ContentTypeMismatch (got : Str)
  | ContentTypeMissing
  | InvalidMimeType (got : Str)
  | RedirectMismatch (got : Str)
  | RedirectMissing
  | ServerMismatch (got : Str)
  | EncodingMismatch (got : Str)
  | EncodingMissing
  | HeaderMismatch (header : String) (got : Str)
  | HeaderMissing (header : String)
  | ContentsFail (fail : ContentsFail)

/-- `i64 as i32`: two's-complement wrapping narrowing. -/
def wrap_i32 (n : Int) : Int := (n + 2 ^ 31) % 2 ^ 32 - 2 ^ 31

/-- `table.get(k).map(|e| e.string_or_error(k)).transpose()`, a chain used
for several optional string keys. -/
def Toml.opt_string (table : Toml) (parameter_name : String) :
    Except ReadError (Option Str) :=
  match table.get parameter_name with
  | some v => (v.string_or_error parameter_name).map some
  | none => .ok none

/-- `ContentTypeCheck::read`. -/
def ContentTypeCheck.read (table : Toml) :
    Except ReadError (Option ContentTypeCheck) :=
  match table.get "content_type" with
  | none => .ok none
  | some ct1 =>
    match ct1.string_or_error "content_type" with
    | .error e => .error e
    | .ok ct =>
      if ct.all (fun c => c.isUpper || c.isDigit) then
        if contentTypeClasses.any (fun cl => cl = ct) then
          .ok (some (.Class ct))
        else
          .error (.invalid "content_type" ct1 "it must be a valid content type")
      else
        .ok (some (.MimeType ct))

/-- `RequestParams::read`.  The `headers` branch calls
`string_map_or_read_error(..).unwrap()`, so a `headers` value that is not a
string map panics (`none`). -/
def RequestParams.read (table : Toml) (rewrites : Rewrites) :
    Option (Except ReadError RequestParams) :=
  match table.get_or_read_error "url" with
  | .error e => some (.error e)
  | .ok url_value =>
    match url_value.string_or_error "url" with
    | .error e => some (.error e)
    | .ok url0 =>
      let url := rewrites.url url0
      if url.isEmpty then
        some (.error (.invalid "url" url_value "it must not be empty"))
      else
        match table.get "headers" with
        | some hv =>
          match hv.string_map_or_read_error "headers" with
          | .error _ => none  -- the .unwrap() panic
          | .ok extra_headers => some (.ok ⟨url, extra_headers⟩)
        | none => some (.ok ⟨url, []⟩)

/-- `HeaderConditions::read`. -/
def HeaderConditions.read (table : Toml) (rewrites : Rewrites) :
    Except ReadError HeaderConditions :=
  match ContentTypeCheck.read table with
  | .error e => .error e
  | .ok content_type =>
  match table.opt_string "redirect_to" with
  | .error e => .error e
  | .ok redirect0 =>
  match table.opt_string "server" with
  | .error e => .error e
  | .ok server =>
  match table.opt_string "encoding" with
  | .error e => .error e
  | .ok encoding =>
  match (match table.get "also" with
         | some v => (v.string_map_or_read_error "also").map some
         | none => .ok none : Except ReadError (Option (List (String × Str)))) with
  | .error e => .error e
  | .ok also0 =>
    .ok ⟨content_type, redirect0.map rewrites.url, server, encoding, also0.getD []⟩

/-- `HttpCheck::read`.  The `status` key is read with
`e.as_integer().unwrap() as i32`, which panics (`none`) when the value is
not an integer. -/
def HttpCheck.read (table : Toml) (rewrites : Rewrites) :
    Option (Except ReadError HttpCheck) :=
  match table.ensure_only_keys ["url", "headers", "status", "server",
      "encoding", "content_type", "redirect_to", "body", "also"] with
  | none => none
  | some (.error e) => some (.error e)
  | some (.ok ()) =>
  match RequestParams.read table rewrites with
  | none => none
  | some (.error e) => some (.error e)
  | some (.ok request) =>
  match (match table.get "status" with
         | none => some none
         | some v =>
           match v.as_integer with
           | some n => some (some (wrap_i32 n))
           | none => none  -- the .unwrap() panic
         : Option (Option Int)) with
  | none => none
  | some status =>
  match HeaderConditions.read table rewrites with
  | .error e => some (.error e)
  | .ok headers =>
  match (match table.get "body" with
         | none => some (.ok none)
         | some v => (ContentsMatcher.read "body" v).map (·.map some)
         : Option (Except ReadError (Option ContentsMatcher))) with
  | none => none
  | some (.error e) => some (.error e)
  | some (.ok body) => some (.ok ⟨request, status, headers, body⟩)

/-- `HttpCheck::redirect_result`: the check result for redirects and the
`Location` header, given the expected location, the received `Location`
header, and the received status.  (The first condition is transcribed
verbatim from the source: `got_status < 300 && got_status > 303`.) -/
def HttpCheck.redirect_result (expected_location : Str)
    (got_location : Option Str) (got_status : Int) :
    CheckResult HttpPass HttpFail :=
  if got_status < 300 ∧ got_status > 303 then
    .Failed (.StatusMismatch got_status)
  else
    match got_location with
    | some got =>
      if got = expected_location then .Passed .RedirectMatch
      else .Failed (.RedirectMismatch got)
    | none => .Failed .RedirectMissing

/-- Modelled from the spec: the intended redirect validator, "redirect-valid
iff 300 ≤ status ≤ 303" (`Redirect check fails if status is outside
300–303`), for comparison with the source's `redirect_result`. -/
def redirect_result_spec (expected_location : Str)
    (got_location : Option Str) (got_status : Int) :
    CheckResult HttpPass HttpFail :=
  if got_status < 300 ∨ got_status > 303 then
    .Failed (.StatusMismatch got_status)
  else
    match got_location with
    | some got =>
      if got = expected_location then .Passed .RedirectMatch
      else .Failed (.RedirectMismatch got)
    | none => .Failed .RedirectMissing

/-! ## The TAP check (`spec_checks/src/command/tap.rs`)

The two anchored regexes `COUNT_LINE` (`^(\d+)\.\.(\d+)$`) and
`RESULT_LINE` (`^(?:(not)\s+)?ok\s+(\d+)(?:\s*-\s*(.+))?$`) are embedded as
character-level matchers (greedy repetition with the single give-back step
of `\s*` before a non-empty `(.+)`); the `\s` class is modelled as ASCII
whitespace. -/

/-- The regex `\s` class (ASCII part). -/
def isRegexWs (c : Char) : Bool :=
  c = ' ' ∨ c = '\t' ∨ c = '\n' ∨ c = '\x0b' ∨ c = '\x0c' ∨ c = '\r'

/-- `COUNT_LINE.captures`: the two digit groups of `^(\d+)\.\.(\d+)$`. -/
def count_line_captures (line : Str) : Option (Str × Str) :=
  let d1 := line.takeWhile Char.isDigit
  if d1.isEmpty then none
  else
    match line.drop d1.length with
    | '.' :: '.' :: d2 =>
      if ¬ d2.isEmpty ∧ d2.all Char.isDigit then some (d1, d2) else none
    | _ => none

/-- `RESULT_LINE` after the optional `(not)\s+` group:
`ok\s+(\d+)(?:\s*-\s*(.+))?$`, returning the digits and the description. -/
def result_line_after_not (rest : Str) : Option (Str × Option Str) :=
  match rest with
  | 'o' :: 'k' :: rest1 =>
    let ws := rest1.takeWhile isRegexWs
    if ws.isEmpty then none  -- `\s+` needs at least one character
    else
      let rest2 := rest1.drop ws.length
      let digits := rest2.takeWhile Char.isDigit
      if digits.isEmpty then none
      else
        match rest2.drop digits.length with
        | [] => some (digits, none)
        | tail =>
          match tail.dropWhile isRegexWs with
          | '-' :: r =>
            let d := r.dropWhile isRegexWs
            if ¬ d.isEmpty then some (digits, some d)
            else
              -- `\s*` gives one whitespace character back to `(.+)`
              match r.getLast? with
              | some c => some (digits, some [c])
              | none => none
          | _ => none
  | _ => none

/-- `RESULT_LINE.captures`: whether group 1 (`not`) matched, the digit
group, and the optional description group. -/
def result_line_captures (line : Str) : Option (Bool × Str × Option Str) :=
  match line with
  | 'n' :: 'o' :: 't' :: rest =>
    let ws := rest.takeWhile isRegexWs
    if ws.isEmpty then
      (result_line_after_not line).map (fun nd => (false, nd))
    else
      match result_line_after_not (rest.drop ws.length) with
      | some nd => some (true, nd)
      | none => (result_line_after_not line).map (fun nd => (false, nd))
  | _ => (result_line_after_not line).map (fun nd => (false, nd))

/-- `TestNumber` (`u32`; the range is enforced where numbers are parsed). -/
abbrev TestNumber := Nat

/-- `str::parse::<u32>().unwrap()` on a captured digit group: `none` (the
panic) past `u32::MAX`. -/
def parse_u32 (digits : Str) : Option Nat :=
  let n := digits.foldl (fun acc c => acc * 10 + (c.toNat - '0'.toNat)) 0
  if n < 2 ^ 32 then some n else none

/-- `Pass` for the TAP check. -/
inductive TapPass where
  | TestPassed (num : TestNumber) (description : Option Str)
  | CorrectNumber (expected : TestNumber)

/-- `Fail` for the TAP check. -/
inductive TapFail where
  | CommandFailed
  | TestFailed (num : TestNumber) (description : Option Str)
  | IncorrectNumber (expected got : TestNumber)
  | UnparseableLine (line : Str)

/-- The line loop of `TapCheck::check`, carrying `results`,
`expected_count` and `test_count`.  `none` models the
`panic!("The count line came late! What gives?")` and the number-parse
`unwrap` panics. -/
def tap_line_loop :
    List Str → List (CheckResult TapPass TapFail) → Option TestNumber →
    TestNumber →
    Option (List (CheckResult TapPass TapFail) × Option TestNumber × TestNumber)
  | [], results, expected_count, test_count =>
    some (results, expected_count, test_count)
  | line :: rest, results, expected_count, test_count =>
    match count_line_captures line with
    | some caps =>
      if results.isEmpty then
        match parse_u32 caps.2 with
        | some n => tap_line_loop rest results (some n) test_count
        | none => none
      else
        none  -- panic!("The count line came late! What gives?")
    | none =>
      match result_line_captures line with
      | some (isNot, number_digits, description) =>
        match parse_u32 number_digits with
        | some number =>
          if isNot then
            tap_line_loop rest
              (results ++ [.Failed (.TestFailed number description)])
              expected_count (test_count + 1)
          else
            tap_line_loop rest
              (results ++ [.Passed (.TestPassed number description)])
              expected_count (test_count + 1)
        | none => none
      | none =>
        tap_line_loop rest (results ++ [.Failed (.UnparseableLine line)])
          expected_count test_count

/-- `TapCheck::check` (the `RunCheck` impl), on the outcome of
`shell.run_command`. -/
def TapCheck.check (ran : Except ExecError RanCommand) :
    Option (List (CheckResult TapPass TapFail)) :=
  match ran with
  | .error _ => some [.Failed .CommandFailed]
  | .ok ran_command =>
    match tap_line_loop ran_command.stdout_lines [] none 0 with
    | none => none
    | some (results, expected_count, test_count) =>
      match expected_count with
      | some expected =>
        if test_count = expected then
          some (results ++ [.Passed (.CorrectNumber expected)])
        else
          some (results ++ [.Failed (.IncorrectNumber expected test_count)])
      | none => some results

/-! ## The failure-correlation table (`spec_analysis/src/table.rs`,
`spec_analysis/src/property.rs`)

The three `HashMap` indexes become association lists with unique keys (a
new key is appended on first insertion; `HashMap` iteration order is
arbitrary, and no claim depends on output order beyond membership). -/

/-- `DataPoint`: a property of a check, used during analysis. -/
inductive DataPoint where
  | InvolvesPath (path : FsPath)
  | InvolvesUser (user : Str)
  | InvolvesGroup (group : Str)

/-- `MatchingChecks`: one bucket — the checks involving a property, split
into passed and failed. -/
structure MatchingChecks (C : Type) where
  passes : List C
  fails : List C

/-- `AnalysisTable`: the three property indexes. -/
structure AnalysisTable (C : Type) where
  paths : List (FsPath × MatchingChecks C)
  users : List (Str × MatchingChecks C)
  groups : List (Str × MatchingChecks C)

/-- `Correlation`: a property common to a set of failed checks, and how
many checks take part. -/
structure Correlation where
  property : DataPoint
  count : Nat

/-- The per-index body of `AnalysisTable::add`: insert an empty bucket when
the key is new, then push the check into the bucket's `passes` or `fails`
list. -/
def bucketAdd {K C : Type} [DecidableEq K] (m : List (K × MatchingChecks C))
    (key : K) (check : C) (passed : Bool) : List (K × MatchingChecks C) :=
  let m1 := if m.any (fun kv => kv.1 = key) then m else m ++ [(key, ⟨[], []⟩)]
  m1.map (fun kv =>
    if kv.1 = key then
      (kv.1, if passed then ⟨kv.2.passes ++ [check], kv.2.fails⟩
             else ⟨kv.2.passes, kv.2.fails ++ [check]⟩)
    else kv)

/-- `AnalysisTable::add`: for each property yielded by the iterator, add
the check to the relevant index. -/
def AnalysisTable.add {C : Type} (t : AnalysisTable C) (check : C)
    (properties : List DataPoint) (passed : Bool) : AnalysisTable C :=
  properties.foldl (fun t prop =>
    match prop with
    | .InvolvesPath path => { t with paths := bucketAdd t.paths path check passed }
    | .InvolvesUser user => { t with users := bucketAdd t.users user check passed }
    | .InvolvesGroup group => { t with groups := bucketAdd t.groups group check passed })
    t

/-- The per-index body of `AnalysisTable::resolve_correlations`: emit a
correlation for every bucket with no passes and at least one failure. -/
def resolveIndex {K C : Type} (mk : K → DataPoint)
    (m : List (K × MatchingChecks C)) : List Correlation :=
  m.filterMap (fun kv =>
    if kv.2.passes.isEmpty ∧ ¬ kv.2.fails.isEmpty then
      some ⟨mk kv.1, kv.2.fails.length⟩
    else none)

/-- `AnalysisTable::resolve_correlations`. -/
def AnalysisTable.resolve_correlations {C : Type} (t : AnalysisTable C) :
    List Correlation :=
  resolveIndex .InvolvesPath t.paths
    ++ resolveIndex .InvolvesUser t.users
    ++ resolveIndex .InvolvesGroup t.groups

/-- A table populated from a sequence of evaluated checks, each with its
data points and whether it passed (the driver's calls to
`analysis.add(..)`). -/
def buildTable {C : Type} (entries : List (C × List DataPoint × Bool)) :
    AnalysisTable C :=
  entries.foldl (fun t e => t.add e.1 e.2.1 e.2.2) ⟨[], [], []⟩

/-- The keys of one index. -/
def keysOf {K C : Type} (m : List (K × MatchingChecks C)) : List K :=
  m.map (·.1)

/-- The bucket of one index for a key (an empty bucket when absent). -/
def bucketFor {K C : Type} [DecidableEq K]
    (m : List (K × MatchingChecks C)) (key : K) : MatchingChecks C :=
  match m.find? (fun kv => kv.1 = key) with
  | some kv => kv.2
  | none => ⟨[], []⟩

/-- The bucket a data point refers to. -/
def AnalysisTable.bucket {C : Type} (t : AnalysisTable C) :
    DataPoint → MatchingChecks C
  | .InvolvesPath p => bucketFor t.paths p
  | .InvolvesUser u => bucketFor t.users u
  | .InvolvesGroup g => bucketFor t.groups g

/-- All three indexes have unique keys (the `HashMap` invariant). -/
def TableNodup {C : Type} (t : AnalysisTable C) : Prop :=
  (keysOf t.paths).Nodup ∧ (keysOf t.users).Nodup ∧ (keysOf t.groups).Nodup

/-! ## Theorems -/

/-- **C1.**  For every Exec cell built from one invocation, the underlying
external command is executed at most once per batch: the first call to
`Exec::run` transitions the cell from `Primed` to `Completed` (or
`Attempted`) and executes the process (exactly one `run_and_store` call),
and every subsequent call to `run` on that cell returns the same shared
typed result (when `Completed`) or the same shared error (when `Attempted`)
without executing anything — the executor is returned untouched; a
`Predetermined` cell never executes at all. -/
theorem exec_run_at_most_once {T : Type}
    (interpret : List Str → ExitReason → Except ExecError T)
    (cmd : Cmd) (ex : Executor)
    (r : Except ExecError T) (e' : Exec T) (ex' : Executor)
    (h : Exec.run interpret (.Invocation (.Primed cmd)) ex = some (r, e', ex')) :
    ex'.spawnCount = ex.spawnCount + 1
    ∧ (∀ ex₂ : Executor, Exec.run interpret e' ex₂ = some (r, e', ex₂))
    ∧ (∀ (name : String) (t : T) (ex₂ : Executor),
        Exec.run interpret (.Predetermined name t) ex₂
          = some (.ok t, .Predetermined name t, ex₂)) := by
  simp only [Exec.run, Executor.run_and_store] at h
  rcases hw : ex.world cmd with err | rc
  · rw [hw] at h
    simp only [Option.some.injEq, Prod.mk.injEq] at h
    obtain ⟨hr, he, hex⟩ := h
    subst hr; subst he; subst hex
    exact ⟨rfl, fun _ => rfl, fun _ _ _ => rfl⟩
  · rw [hw] at h
    dsimp only at h
    rcases hi : interpret rc.stdout_lines rc.exit_reason with ierr | t
    · rw [hi] at h
      simp only [Option.some.injEq, Prod.mk.injEq] at h
      obtain ⟨hr, he, hex⟩ := h
      subst hr; subst he; subst hex
      exact ⟨rfl, fun _ => rfl, fun _ _ _ => rfl⟩
    · rw [hi] at h
      dsimp only at h
      simp only [Option.some.injEq, Prod.mk.injEq] at h
      obtain ⟨hr, he, hex⟩ := h
      subst hr; subst he; subst hex
      exact ⟨rfl, fun _ => rfl, fun _ _ _ => rfl⟩

/-- Witness for C1: a concrete primed cell, run against a world where the
command exits 0 with one output line; the first run spawns once and every
later run is a cache hit. -/
theorem exec_run_at_most_once_witness :
    (Exec.run (T := Nat) (fun lines _ => .ok lines.length)
      (.Invocation (.Primed ['l', 's']))
      ⟨fun c => .ok ⟨c, .Status 0, [['h', 'i']], []⟩, 0, []⟩).isSome = true
    ∧ ∀ res, Exec.run (T := Nat) (fun lines _ => .ok lines.length)
        (.Invocation (.Primed ['l', 's']))
        ⟨fun c => .ok ⟨c, .Status 0, [['h', 'i']], []⟩, 0, []⟩
        = some res →
      res.2.2.spawnCount = 1
      ∧ ∀ ex₂, Exec.run (fun lines _ => .ok lines.length) res.2.1 ex₂
          = some (res.1, res.2.1, ex₂) := by
  refine ⟨rfl, fun res h => ?_⟩
  obtain ⟨h1, h2, _⟩ := exec_run_at_most_once (fun lines _ => .ok lines.length)
    ['l', 's'] ⟨fun c => .ok ⟨c, .Status 0, [['h', 'i']], []⟩, 0, []⟩
    res.1 res.2.1 res.2.2 (by rw [h])
  exact ⟨h1, h2⟩

/-- **C2.**  For every check and every adapter response, the check as a whole
is reported as passed if and only if every sub-result in its evaluated
sub-result list is a `Passed` variant; a list containing any `Failed` or
`CommandError` sub-result makes the check fail. -/
theorem check_passed_iff_all_subresults_passed {P F : Type}
    (displayPass : P → String) (displayFail : F → String)
    (displayErr : ExecError → String) (checkMessage : String)
    (results : List (CheckResult P F)) :
    ((results_to_output displayPass displayFail displayErr checkMessage
        results).passed = true
      ↔ ∀ r ∈ results, ∃ p, r = .Passed p)
    ∧ (∀ r ∈ results, ((∃ f, r = .Failed f) ∨ (∃ e, r = .CommandError e)) →
        (results_to_output displayPass displayFail displayErr checkMessage
          results).passed = false) := by
  have hpass : ∀ r : CheckResult P F, r.passed = true ↔ ∃ p, r = .Passed p := by
    intro r; cases r <;> simp [CheckResult.passed]
  constructor
  · simp only [results_to_output, List.all_eq_true]
    constructor
    · intro h r hr; exact (hpass r).1 (h r hr)
    · intro h r hr; exact (hpass r).2 (h r hr)
  · intro r hr hcase
    have hnot : ¬ (results.all CheckResult.passed = true) := by
      rw [List.all_eq_true]
      intro hall
      have hp := (hpass r).1 (hall r hr)
      obtain ⟨p, hp⟩ := hp
      rcases hcase with ⟨f, rfl⟩ | ⟨e, rfl⟩
      · cases hp
      · cases hp
    simpa [results_to_output] using hnot

/-- Witness for C2: a two-element sub-result list with one failure is
reported as failed; an all-passed list is reported as passed. -/
theorem check_passed_iff_all_subresults_passed_witness :
    (results_to_output (fun _ : Unit => "ok") (fun _ : Unit => "bad")
        (fun _ => "err") "check"
        [.Passed (), .Failed ()]).passed = false
    ∧ (results_to_output (fun _ : Unit => "ok") (fun _ : Unit => "bad")
        (fun _ => "err") "check"
        [.Passed (), .Passed ()]).passed = true :=
  ⟨(check_passed_iff_all_subresults_passed _ _ _ _ _).2 (.Failed ())
      (by simp) (Or.inl ⟨(), rfl⟩),
   (check_passed_iff_all_subresults_passed _ _ _ _ _).1.mpr
      (by
        intro r hr
        simp only [List.mem_cons, List.not_mem_nil, or_false] at hr
        rcases hr with rfl | rfl
        · exact ⟨(), rfl⟩
        · exact ⟨(), rfl⟩)⟩

/-- **C3.**  The status guard of `HttpCheck::redirect_result` is dead code:
`got_status < 300 && got_status > 303` is unsatisfiable, so the sub-result
never is a status failure — for every status, inside or outside 300–303,
the `Location` header is compared instead.  At the spec's own example
boundary, status 500 with a matching `Location` yields
`Passed(RedirectMatch)` where the claim (and the spec-modelled intended
validator) requires `Failed(StatusMismatch 500)`. -/
theorem redirect_result_status_guard_dead (el : Str) (gl : Option Str) (s : Int) :
    HttpCheck.redirect_result el gl s
      = (match gl with
         | some got =>
           if got = el then .Passed .RedirectMatch
           else .Failed (.RedirectMismatch got)
         | none => .Failed .RedirectMissing)
    ∧ HttpCheck.redirect_result "https://a/".toList (some "https://a/".toList) 500
      = .Passed .RedirectMatch
    ∧ redirect_result_spec "https://a/".toList (some "https://a/".toList) 500
      = .Failed (.StatusMismatch 500) := by
  refine ⟨?_, ?_, ?_⟩
  · unfold HttpCheck.redirect_result
    rw [if_neg (by omega : ¬ (s < 300 ∧ s > 303))]
  · unfold HttpCheck.redirect_result
    rw [if_neg (by omega : ¬ ((500 : Int) < 300 ∧ (500 : Int) > 303))]
    simp
  · unfold redirect_result_spec
    rw [if_pos (by omega : (500 : Int) < 300 ∨ (500 : Int) > 303)]

/-- **C10.**  There exists an input table for which `HttpCheck::read` does
not return a `ReadError` but panics: a non-integer `status` value hits
`as_integer().unwrap()`.  The same table with an integer `status` reads
fine, so the panic is caused by the status value's type alone. -/
theorem http_read_panics_on_non_integer_status :
    HttpCheck.read (.table [("url", .str "https://x/".toList),
        ("status", .str "hi".toList)]) ⟨[], false⟩ = none
    ∧ (∃ c, HttpCheck.read (.table [("url", .str "https://x/".toList),
        ("status", .int 200)]) ⟨[], false⟩ = some (.ok c)) :=
  ⟨rfl, ⟨_, rfl⟩⟩

/-- **C4.**  Two of the claimed failure cases hold — a declared count that
differs from the number of result lines, and a line matching neither regex,
each yield a `Failed` sub-result — but the third does not: when the count
line `N..M` arrives after a result line has been parsed, the evaluation
panics (`panic!("The count line came late! What gives?")`) instead of
emitting a `Failed` sub-result.  The spec's own example output is also
evaluated. -/
theorem tap_count_line_late_panics :
    TapCheck.check (.ok ⟨"./t".toList, .Status 0,
        ["ok 1".toList, "1..1".toList], []⟩) = none
    ∧ TapCheck.check (.ok ⟨"./t".toList, .Status 0,
        ["1..2".toList, "ok 1 - a".toList, "not ok 2 - b".toList], []⟩)
      = some [.Passed (.TestPassed 1 (some "a".toList)),
              .Failed (.TestFailed 2 (some "b".toList)),
              .Passed (.CorrectNumber 2)]
    ∧ TapCheck.check (.ok ⟨"./t".toList, .Status 0,
        ["1..3".toList, "ok 1".toList, "wibble".toList], []⟩)
      = some [.Passed (.TestPassed 1 none),
              .Failed (.UnparseableLine "wibble".toList),
              .Failed (.IncorrectNumber 3 1)] :=
  ⟨rfl, rfl, rfl⟩

/-- **C6.**  The check is excluded if any of its tags is in the deny set;
otherwise it is included if the allow set is empty; otherwise it is included
iff at least one of its tags is in the allow set.  A check with no tags is
included exactly when the allow set is empty, and overall inclusion in the
set is the conjunction of the type filter decision and the tags filter
decision. -/
theorem filters_spec (f : TagsFilter) (tf : TypesFilter) (tags : List String)
    (check_key : String) (entryTags : Option Tags) :
    ((∃ t ∈ tags, t ∈ f.skip_tags) → f.should_include_tags tags = false)
    ∧ ((∀ t ∈ tags, t ∉ f.skip_tags) → f.tags = [] →
        f.should_include_tags tags = true)
    ∧ ((∀ t ∈ tags, t ∉ f.skip_tags) → f.tags ≠ [] →
        (f.should_include_tags tags = true ↔ ∃ t ∈ tags, t ∈ f.tags))
    ∧ (f.should_include_tags [] = true ↔ f.tags = [])
    ∧ (check_entry_survives_filter ⟨f, tf⟩ check_key entryTags = true ↔
        (tf.should_include_type check_key = true
          ∧ f.should_include_tags (tagList entryTags) = true)) := by
  refine ⟨?_, ?_, ?_, ?_, ?_⟩
  · rintro ⟨t, ht, hskip⟩
    simp only [TagsFilter.should_include_tags]
    rw [if_pos]
    simp only [List.any_eq_true, decide_eq_true_eq]
    exact ⟨t, hskip, t, ht, rfl⟩
  · intro hno hempty
    simp only [TagsFilter.should_include_tags]
    rw [if_neg, if_pos]
    · simpa using hempty
    · simp only [List.any_eq_true, decide_eq_true_eq]
      rintro ⟨t1, h1, t2, h2, rfl⟩
      exact hno t1 h2 h1
  · intro hno hne
    simp only [TagsFilter.should_include_tags]
    rw [if_neg, if_neg]
    · simp only [List.any_eq_true, decide_eq_true_eq]
      constructor
      · rintro ⟨t1, h1, t2, h2, rfl⟩; exact ⟨t1, h2, h1⟩
      · rintro ⟨t, ht, hin⟩; exact ⟨t, hin, t, ht, rfl⟩
    · simpa using hne
    · simp only [List.any_eq_true, decide_eq_true_eq]
      rintro ⟨t1, h1, t2, h2, rfl⟩
      exact hno t1 h2 h1
  · simp [TagsFilter.should_include_tags, List.isEmpty_iff]
  · by_cases ht : tf.should_include_type check_key = true
    · by_cases htag : f.should_include_tags (tagList entryTags) = true
      · cases entryTags with
        | none =>
          simp only [tagList] at htag
          simp [check_entry_survives_filter, tagList, ht, htag]
        | some t =>
          cases t with
          | One tag =>
            simp only [tagList] at htag
            simp [check_entry_survives_filter, tagList, ht, htag]
          | Many tags =>
            simp only [tagList] at htag
            simp [check_entry_survives_filter, tagList, ht, htag]
      · cases entryTags with
        | none =>
          simp only [tagList] at htag
          simp [check_entry_survives_filter, tagList, ht, htag]
        | some t =>
          cases t with
          | One tag =>
            simp only [tagList] at htag
            simp [check_entry_survives_filter, tagList, ht, htag]
          | Many tags =>
            simp only [tagList] at htag
            simp [check_entry_survives_filter, tagList, ht, htag]
    · simp [check_entry_survives_filter, ht]

/-- Witness for C6: concrete filter decisions, matching the unit tests of
`src/filter.rs`. -/
theorem filters_spec_witness :
    TagsFilter.should_include_tags ⟨["green"], ["red"]⟩ ["blue", "red"] = false
    ∧ TagsFilter.should_include_tags ⟨[], ["red"]⟩ ["blue"] = true
    ∧ TagsFilter.should_include_tags ⟨["green"], ["red"]⟩ ["blue", "green"] = true
    ∧ check_entry_survives_filter ⟨⟨["green"], ["red"]⟩, ⟨["apt"], []⟩⟩ "apt"
        (some (.Many ["green"])) = true :=
  ⟨(filters_spec ⟨["green"], ["red"]⟩ ⟨[], []⟩ ["blue", "red"] "" none).1
      ⟨"red", by simp, by simp⟩,
   (filters_spec ⟨[], ["red"]⟩ ⟨[], []⟩ ["blue"] "" none).2.1
      (by intro t ht; simp at ht; subst ht; simp) rfl,
   ((filters_spec ⟨["green"], ["red"]⟩ ⟨[], []⟩ ["blue", "green"] "" none).2.2.1
      (by intro t ht; simp at ht; rcases ht with rfl | rfl <;> simp)
      (by simp)).mpr ⟨"green", by simp, by simp⟩,
   ((filters_spec ⟨["green"], ["red"]⟩ ⟨["apt"], []⟩ [] "apt"
      (some (.Many ["green"]))).2.2.2.2).mpr ⟨by decide, by decide⟩⟩

/-- **C7.**  For every DNS check expecting a present record with value `v`,
evaluation yields exactly one sub-result determined by the adapter's answer
list: if the list contains `v`, `Pass(RecordPresent)`; if it is non-empty
but does not contain `v`, `Fail(RecordDifferent)` carrying the received
list; if it is empty, `Fail(RecordMissing)`. -/
theorem dns_check_present (req : DnsRequest) (v : Str) (l : List Str) :
    (v ∈ l →
      DnsCheck.check ⟨req, .Present v⟩ (.ok l) = [.Passed .RecordPresent])
    ∧ (l ≠ [] → v ∉ l →
      DnsCheck.check ⟨req, .Present v⟩ (.ok l)
        = [.Failed (.RecordDifferent l)])
    ∧ DnsCheck.check ⟨req, .Present v⟩ (.ok []) = [.Failed .RecordMissing] := by
  refine ⟨?_, ?_, rfl⟩
  · intro hv
    cases l with
    | nil => cases hv
    | cons a as =>
      have hany : (a :: as).any (fun x => x = v) = true := by
        simp only [List.any_eq_true, decide_eq_true_eq]
        exact ⟨v, hv, rfl⟩
      simp [DnsCheck.check, hany]
  · intro hne hnv
    cases l with
    | nil => exact absurd rfl hne
    | cons a as =>
      have hany : (a :: as).any (fun x => x = v) = false := by
        rw [List.any_eq_false]
        intro x hx
        simp only [decide_eq_true_eq]
        rintro rfl
        exact hnv hx
      simp [DnsCheck.check, hany]

/-- Witness for C7: the spec's own example, `value = "1.2.3.4"` against
answers `["1.2.3.4"]`, `["9.9.9.9"]` and `[]`. -/
theorem dns_check_present_witness :
    DnsCheck.check ⟨⟨.DefaultResolver, "x.example".toList, "A".toList⟩,
        .Present "1.2.3.4".toList⟩ (.ok ["1.2.3.4".toList])
      = [.Passed .RecordPresent]
    ∧ DnsCheck.check ⟨⟨.DefaultResolver, "x.example".toList, "A".toList⟩,
        .Present "1.2.3.4".toList⟩ (.ok ["9.9.9.9".toList])
      = [.Failed (.RecordDifferent ["9.9.9.9".toList])]
    ∧ DnsCheck.check ⟨⟨.DefaultResolver, "x.example".toList, "A".toList⟩,
        .Present "1.2.3.4".toList⟩ (.ok [])
      = [.Failed .RecordMissing] :=
  ⟨(dns_check_present ⟨.DefaultResolver, "x.example".toList, "A".toList⟩
      "1.2.3.4".toList ["1.2.3.4".toList]).1 (by decide),
   (dns_check_present ⟨.DefaultResolver, "x.example".toList, "A".toList⟩
      "1.2.3.4".toList ["9.9.9.9".toList]).2.1 (by decide) (by decide),
   (dns_check_present ⟨.DefaultResolver, "x.example".toList, "A".toList⟩
      "1.2.3.4".toList []).2.2⟩

/-- **C9.**  For every check table containing a `port` key, reading the port
succeeds returning the port when the integer value is between 1 and 65535
inclusive, and yields a read error otherwise — in particular when the value
is 0 or greater than 65535. -/
theorem portNumber_read_range (n : Int) :
    (1 ≤ n ∧ n ≤ 65535 →
      PortNumber.read (.table [("port", .int n)]) = .ok ⟨n.toNat⟩)
    ∧ ((n ≤ 0 ∨ 65535 < n) →
      ∃ e, PortNumber.read (.table [("port", .int n)]) = .error e) := by
  constructor
  · rintro ⟨h1, h2⟩
    simp only [PortNumber.read, Toml.get_or_read_error, Toml.get, Toml.number_or_error,
      Toml.as_integer, List.find?, List.map]
    norm_num
    split
    · split
      · rfl
      · omega
    · omega
  · intro h
    simp only [PortNumber.read, Toml.get_or_read_error, Toml.get, Toml.number_or_error,
      Toml.as_integer, List.find?, List.map]
    norm_num
    split
    · split
      · omega
      · exact ⟨_, rfl⟩
    · exact ⟨_, rfl⟩

/-- Witness for C9: ports 1 and 65535 are accepted, 0 and 65536 are read
errors. -/
theorem portNumber_read_range_witness :
    PortNumber.read (.table [("port", .int 1)]) = .ok ⟨1⟩
    ∧ PortNumber.read (.table [("port", .int 65535)]) = .ok ⟨65535⟩
    ∧ (∃ e, PortNumber.read (.table [("port", .int 0)]) = .error e)
    ∧ (∃ e, PortNumber.read (.table [("port", .int 65536)]) = .error e) :=
  ⟨(portNumber_read_range 1).1 (by norm_num),
   (portNumber_read_range 65535).1 (by norm_num),
   (portNumber_read_range 0).2 (by norm_num),
   (portNumber_read_range 65536).2 (by norm_num)⟩

/-! ### Rewrite idempotence (C8) -/

/-- If a target is prefix-incomparable with a source, no continuation of the
target is prefixed by that source. -/
theorem not_prefix_append {α : Type} (f t s : List α)
    (h1 : ¬ f <+: t) (h2 : ¬ t <+: f) : ¬ f <+: t ++ s := by
  intro h
  rcases Nat.le_total f.length t.length with hle | hle
  · exact h1 (List.prefix_of_prefix_length_le h (List.prefix_append t s) hle)
  · exact h2 (List.prefix_of_prefix_length_le (List.prefix_append t s) h hle)

/-- `prefixRewrite` is the identity when no rule's source is a prefix of the
input. -/
theorem prefixRewrite_no_match {α : Type} [DecidableEq α]
    (rules : List (List α × List α)) (x : List α)
    (h : ∀ ft ∈ rules, ¬ ft.1 <+: x) : prefixRewrite rules x = x := by
  induction rules with
  | nil => rfl
  | cons ft rest ih =>
    obtain ⟨source, target⟩ := ft
    simp only [prefixRewrite]
    rw [if_neg, ih]
    · intro ft hft
      exact h ft (List.mem_cons_of_mem _ hft)
    · intro hp
      exact h (source, target) (List.mem_cons_self _ _)
        (List.isPrefixOf_iff_prefix.1 hp)

/-- `prefixRewrite` either fires no rule and is the identity, or fires some
rule, replacing that rule's source prefix by its target. -/
theorem prefixRewrite_cases {α : Type} [DecidableEq α]
    (rules : List (List α × List α)) (x : List α) :
    ((∀ ft ∈ rules, ¬ ft.1 <+: x) ∧ prefixRewrite rules x = x)
    ∨ (∃ ft ∈ rules, ft.1 <+: x
        ∧ prefixRewrite rules x = ft.2 ++ x.drop ft.1.length) := by
  induction rules with
  | nil => exact Or.inl ⟨by simp, rfl⟩
  | cons ft rest ih =>
    obtain ⟨source, target⟩ := ft
    by_cases hp : source <+: x
    · refine Or.inr ⟨(source, target), List.mem_cons_self _ _, hp, ?_⟩
      simp only [prefixRewrite]
      rw [if_pos (List.isPrefixOf_iff_prefix.2 hp)]
    · have hstep : prefixRewrite ((source, target) :: rest) x
          = prefixRewrite rest x := by
        simp only [prefixRewrite]
        rw [if_neg (fun hc => hp (List.isPrefixOf_iff_prefix.1 hc))]
      rcases ih with ⟨hno, heq⟩ | ⟨ft, hft, hpre, heq⟩
      · refine Or.inl ⟨?_, hstep.trans heq⟩
        intro ft hft
        rcases List.mem_cons.1 hft with rfl | hmem
        · exact hp
        · exact hno ft hmem
      · exact Or.inr ⟨ft, List.mem_cons_of_mem _ hft, hpre, hstep.trans heq⟩

/-- Under non-overlap, one prefix-rewrite pass produces a value on which no
rule fires. -/
theorem prefixRewrite_result_no_match {α : Type} [DecidableEq α]
    (rules : List (List α × List α)) (h : NoOverlapPairs rules) (x : List α) :
    ∀ ft ∈ rules, ¬ ft.1 <+: prefixRewrite rules x := by
  rcases prefixRewrite_cases rules x with ⟨hno, heq⟩ | ⟨ft, hft, _, heq⟩
  · rw [heq]; exact hno
  · rw [heq]
    intro ft' hft'
    exact not_prefix_append ft'.1 ft.2 _ (h ft hft ft' hft').1 (h ft hft ft' hft').2

/-- `exactRewrite` is the identity when no rule's source equals the input. -/
theorem exactRewrite_no_match (rules : List (Str × Str)) (x : Str)
    (h : ∀ ft ∈ rules, ft.1 ≠ x) : exactRewrite rules x = x := by
  induction rules with
  | nil => rfl
  | cons ft rest ih =>
    obtain ⟨source, target⟩ := ft
    simp only [exactRewrite]
    rw [if_neg (h (source, target) (List.mem_cons_self _ _)), ih]
    intro ft hft
    exact h ft (List.mem_cons_of_mem _ hft)

/-- `exactRewrite` either fires no rule and is the identity, or returns the
first matching rule's target. -/
theorem exactRewrite_cases (rules : List (Str × Str)) (x : Str) :
    ((∀ ft ∈ rules, ft.1 ≠ x) ∧ exactRewrite rules x = x)
    ∨ (∃ ft ∈ rules, exactRewrite rules x = ft.2) := by
  induction rules with
  | nil => exact Or.inl ⟨by simp, rfl⟩
  | cons ft rest ih =>
    obtain ⟨source, target⟩ := ft
    by_cases hp : source = x
    · refine Or.inr ⟨(source, target), List.mem_cons_self _ _, ?_⟩
      simp only [exactRewrite]
      rw [if_pos hp]
    · have hstep : exactRewrite ((source, target) :: rest) x
          = exactRewrite rest x := by
        simp only [exactRewrite]
        rw [if_neg hp]
      rcases ih with ⟨hno, heq⟩ | ⟨ft, hft, heq⟩
      · refine Or.inl ⟨?_, hstep.trans heq⟩
        intro ft hft
        rcases List.mem_cons.1 hft with rfl | hmem
        · exact hp
        · exact hno ft hmem
      · exact Or.inr ⟨ft, List.mem_cons_of_mem _ hft, hstep.trans heq⟩

/-- Expanding a tilde twice is the same as expanding it once, provided the
home directory is a normal one (non-empty, not itself starting with `~`). -/
theorem expand_tilde_idem (home : FsPath) (hne : home ≠ [])
    (hh : home.head? ≠ some ['~']) (p : FsPath) :
    expand_tilde home (expand_tilde home p) = expand_tilde home p := by
  cases p with
  | nil => rfl
  | cons c rest =>
    simp only [expand_tilde]
    by_cases hc : c = ['~']
    · rw [if_pos hc]
      cases home with
      | nil => exact absurd rfl hne
      | cons h0 hs =>
        simp only [List.cons_append, expand_tilde]
        rw [if_neg]
        intro hc0
        exact hh (by rw [hc0]; rfl)
    · rw [if_neg hc]
      simp only [expand_tilde]
      rw [if_neg hc]

/-- A rule target that survives `NoOverlapPairs` (paired with itself) is
non-empty, so prepending it fixes the head of the output. -/
theorem expand_tilde_fixes_target (home : FsPath) (t s : FsPath)
    (hne : t ≠ []) (hh : t.head? ≠ some ['~']) :
    expand_tilde home (t ++ s) = t ++ s := by
  cases t with
  | nil => exact absurd rfl hne
  | cons t0 ts =>
    simp only [List.cons_append, expand_tilde]
    rw [if_neg]
    intro hc
    exact hh (by rw [hc]; rfl)

/-- **C8.**  For every set of rewrite rules with no overlapping rules (no
rule's output is itself subject to any rule — including, for path rules
with tilde expansion enabled, to the tilde-expansion step), applying the
rewrite transform twice equals applying it once: `Rewrites::interface`,
`Rewrites::url` and `Rewrites::path` are each idempotent.  The home
directory supplied to tilde expansion is assumed to be a normal one
(non-empty and not itself starting with `~`). -/
theorem rewrites_idempotent (home : FsPath) (rw : Rewrites)
    (hI : NoOverlapExact rw.interfaceRules)
    (hU : NoOverlapPairs rw.urlRules)
    (hP : NoOverlapPairs rw.pathRules)
    (hT : rw.expand_home = true → NoTildeTargets rw.pathRules)
    (hne : home ≠ []) (hh : home.head? ≠ some ['~']) :
    (∀ s, rw.interface (rw.interface s) = rw.interface s)
    ∧ (∀ u, rw.url (rw.url u) = rw.url u)
    ∧ (∀ p, rw.path home (rw.path home p) = rw.path home p) := by
  refine ⟨?_, ?_, ?_⟩
  · intro s
    unfold Rewrites.interface
    rcases exactRewrite_cases rw.interfaceRules s with ⟨_, heq⟩ | ⟨ft, hft, heq⟩
    · rw [heq, heq]
    · rw [heq]
      apply exactRewrite_no_match
      intro ft' hft'
      exact fun hc => hI ft hft ft' hft' hc.symm
  · intro u
    unfold Rewrites.url
    exact prefixRewrite_no_match _ _ (prefixRewrite_result_no_match _ hU u)
  · intro p
    cases hflag : rw.expand_home with
    | false =>
      simp only [Rewrites.path, hflag, Bool.false_eq_true, if_false]
      exact prefixRewrite_no_match _ _ (prefixRewrite_result_no_match _ hP p)
    | true =>
      simp only [Rewrites.path, hflag, if_true]
      rcases prefixRewrite_cases rw.pathRules (expand_tilde home p) with
        ⟨hno, heq⟩ | ⟨ft, hft, hpre, heq⟩
      · rw [heq, expand_tilde_idem home hne hh p, heq]
      · have htne : ft.2 ≠ [] := by
          intro hc
          have hself := (hP ft hft ft hft).2
          rw [hc] at hself
          exact hself (List.nil_prefix)
        rw [heq, expand_tilde_fixes_target home ft.2 _ htne (hT hflag ft hft)]
        apply prefixRewrite_no_match
        intro ft' hft'
        exact not_prefix_append ft'.1 ft.2 _ (hP ft hft ft' hft').1
          (hP ft hft ft' hft').2

/-- Witness for C8: a concrete non-overlapping rule set of all three kinds,
with tilde expansion on. -/
theorem rewrites_idempotent_witness :
    (NoOverlapExact (Rewrites.interfaceRules ⟨[.Path [['a']] [['b']],
        .Interface ['x'] ['y'], .Url ['u'] ['v']], true⟩)
      ∧ NoOverlapPairs (Rewrites.urlRules ⟨[.Path [['a']] [['b']],
        .Interface ['x'] ['y'], .Url ['u'] ['v']], true⟩)
      ∧ NoOverlapPairs (Rewrites.pathRules ⟨[.Path [['a']] [['b']],
        .Interface ['x'] ['y'], .Url ['u'] ['v']], true⟩))
    ∧ Rewrites.url ⟨[.Path [['a']] [['b']], .Interface ['x'] ['y'],
        .Url ['u'] ['v']], true⟩
        (Rewrites.url ⟨[.Path [['a']] [['b']], .Interface ['x'] ['y'],
          .Url ['u'] ['v']], true⟩ ['u', 'z'])
      = Rewrites.url ⟨[.Path [['a']] [['b']], .Interface ['x'] ['y'],
          .Url ['u'] ['v']], true⟩ ['u', 'z']
    ∧ Rewrites.path [['h']] ⟨[.Path [['a']] [['b']], .Interface ['x'] ['y'],
        .Url ['u'] ['v']], true⟩
        (Rewrites.path [['h']] ⟨[.Path [['a']] [['b']],
          .Interface ['x'] ['y'], .Url ['u'] ['v']], true⟩ [['~'], ['a']])
      = Rewrites.path [['h']] ⟨[.Path [['a']] [['b']],
          .Interface ['x'] ['y'], .Url ['u'] ['v']], true⟩ [['~'], ['a']] :=
  ⟨⟨by decide, by decide, by decide⟩,
   (rewrites_idempotent [['h']] _ (by decide) (by decide) (by decide)
      (fun _ => by decide) (by decide) (by decide)).2.1 ['u', 'z'],
   (rewrites_idempotent [['h']] _ (by decide) (by decide) (by decide)
      (fun _ => by decide) (by decide) (by decide)).2.2 [['~'], ['a']]⟩

/-! ### Correlation resolution (C5) -/

/-- `bucketAdd` leaves the keys unchanged when the key is present, and
appends it when new. -/
theorem keysOf_bucketAdd {K C : Type} [DecidableEq K]
    (m : List (K × MatchingChecks C)) (key : K) (c : C) (p : Bool) :
    keysOf (bucketAdd m key c p)
      = if key ∈ keysOf m then keysOf m else keysOf m ++ [key] := by
  have hmap : ∀ l : List (K × MatchingChecks C),
      keysOf (l.map (fun kv =>
        if kv.1 = key then
          (kv.1, if p then ⟨kv.2.passes ++ [c], kv.2.fails⟩
                 else ⟨kv.2.passes, kv.2.fails ++ [c]⟩)
        else kv)) = keysOf l := by
    intro l
    unfold keysOf
    rw [List.map_map]
    apply List.map_congr_left
    intro kv _
    by_cases h : kv.1 = key
    · simp [Function.comp, h]
    · simp [Function.comp, h]
  have hany : (m.any (fun kv => kv.1 = key) = true) ↔ key ∈ keysOf m := by
    simp only [List.any_eq_true, decide_eq_true_eq, keysOf, List.mem_map]
  by_cases h : key ∈ keysOf m
  · rw [if_pos h]
    simp only [bucketAdd]
    rw [if_pos (hany.2 h)]
    exact hmap m
  · rw [if_neg h]
    simp only [bucketAdd]
    rw [if_neg (fun hc => h (hany.1 hc))]
    rw [hmap]
    simp [keysOf]

/-- `bucketAdd` preserves key uniqueness. -/
theorem nodup_bucketAdd {K C : Type} [DecidableEq K]
    (m : List (K × MatchingChecks C)) (key : K) (c : C) (p : Bool)
    (hnd : (keysOf m).Nodup) : (keysOf (bucketAdd m key c p)).Nodup := by
  rw [keysOf_bucketAdd]
  by_cases h : key ∈ keysOf m
  · rwa [if_pos h]
  · rw [if_neg h]
    simp [List.nodup_append, hnd, h]

/-- `AnalysisTable::add` preserves key uniqueness of all three indexes. -/
theorem tableNodup_add {C : Type} (t : AnalysisTable C) (check : C)
    (properties : List DataPoint) (passed : Bool) (h : TableNodup t) :
    TableNodup (t.add check properties passed) := by
  induction properties generalizing t with
  | nil => exact h
  | cons prop rest ih =>
    obtain ⟨hp, hu, hg⟩ := h
    cases prop with
    | InvolvesPath path =>
      exact ih _ ⟨nodup_bucketAdd _ _ _ _ hp, hu, hg⟩
    | InvolvesUser user =>
      exact ih _ ⟨hp, nodup_bucketAdd _ _ _ _ hu, hg⟩
    | InvolvesGroup group =>
      exact ih _ ⟨hp, hu, nodup_bucketAdd _ _ _ _ hg⟩

/-- A populated table has unique keys in every index. -/
theorem buildTable_nodup {C : Type}
    (entries : List (C × List DataPoint × Bool)) :
    TableNodup (buildTable entries) := by
  have hgen : ∀ (t : AnalysisTable C), TableNodup t →
      TableNodup (entries.foldl (fun t e => t.add e.1 e.2.1 e.2.2) t) := by
    induction entries with
    | nil => exact fun t h => h
    | cons e rest ih =>
      intro t h
      exact ih _ (tableNodup_add _ _ _ _ h)
  exact hgen ⟨[], [], []⟩ ⟨List.nodup_nil, List.nodup_nil, List.nodup_nil⟩

/-- With unique keys, a member pair's bucket is found by lookup. -/
theorem bucketFor_of_mem {K C : Type} [DecidableEq K]
    (m : List (K × MatchingChecks C)) (kv : K × MatchingChecks C)
    (hnd : (keysOf m).Nodup) (hmem : kv ∈ m) : bucketFor m kv.1 = kv.2 := by
  induction m with
  | nil => cases hmem
  | cons hd rest ih =>
    simp only [keysOf, List.map_cons, List.nodup_cons] at hnd
    obtain ⟨hnotin, hnd'⟩ := hnd
    rcases List.mem_cons.1 hmem with rfl | hmem'
    · unfold bucketFor
      rw [List.find?_cons_of_pos _ (by simp)]
    · have hne : ¬ (hd.1 = kv.1) := by
        intro hc
        exact hnotin (hc ▸ List.mem_map.2 ⟨kv, hmem', rfl⟩)
      unfold bucketFor
      rw [List.find?_cons_of_neg _ (by simpa using hne)]
      exact ih hnd' hmem'

/-- Every correlation emitted by one index carries that index's data-point
constructor. -/
theorem resolveIndex_property {K C : Type} (mk : K → DataPoint)
    (m : List (K × MatchingChecks C)) (c : Correlation)
    (h : c ∈ resolveIndex mk m) : ∃ k, c.property = mk k := by
  obtain ⟨kv, _, hsome⟩ := List.mem_filterMap.1 h
  by_cases hcond : (kv.2.passes.isEmpty = true ∧ ¬ kv.2.fails.isEmpty = true)
  · rw [if_pos hcond] at hsome
    injection hsome with h1
    exact ⟨kv.1, by rw [← h1]⟩
  · rw [if_neg hcond] at hsome
    cases hsome

/-- Membership characterisation for one index: a correlation for key `k`
with count `n` is emitted iff `k`'s bucket has no passes, at least one
failure, and `n` failures. -/
theorem resolveIndex_mem {K C : Type} [DecidableEq K] (mk : K → DataPoint)
    (hinj : ∀ a b, mk a = mk b → a = b)
    (m : List (K × MatchingChecks C)) (hnd : (keysOf m).Nodup)
    (k : K) (n : Nat) :
    (⟨mk k, n⟩ : Correlation) ∈ resolveIndex mk m ↔
      ((bucketFor m k).passes = [] ∧ (bucketFor m k).fails ≠ []
        ∧ n = (bucketFor m k).fails.length) := by
  unfold resolveIndex
  rw [List.mem_filterMap]
  constructor
  · rintro ⟨kv, hmem, hsome⟩
    by_cases hcond : (kv.2.passes.isEmpty = true ∧ ¬ kv.2.fails.isEmpty = true)
    · rw [if_pos hcond] at hsome
      simp only [Option.some.injEq, Correlation.mk.injEq] at hsome
      obtain ⟨hprop, hcount⟩ := hsome
      obtain rfl := hinj _ _ hprop
      rw [bucketFor_of_mem m kv hnd hmem]
      obtain ⟨hpe, hfe⟩ := hcond
      exact ⟨List.isEmpty_iff.1 hpe,
        fun hc => hfe (by rw [hc]; rfl), hcount.symm⟩
    · rw [if_neg hcond] at hsome
      cases hsome
  · rintro ⟨hp, hf, hn⟩
    rcases hfind : m.find? (fun kv => kv.1 = k) with _ | kv
    · exfalso
      apply hf
      unfold bucketFor
      rw [hfind]
    · have hmem := List.mem_of_find?_eq_some hfind
      have hk : kv.1 = k := by
        have := List.find?_some hfind
        simpa using this
      have hbucket : bucketFor m k = kv.2 := by
        unfold bucketFor
        rw [hfind]
      rw [hbucket] at hp hf hn
      refine ⟨kv, hmem, ?_⟩
      rw [if_pos ⟨List.isEmpty_iff.2 hp, fun hc => hf (List.isEmpty_iff.1 hc)⟩]
      rw [hk, ← hn]

/-- **C5.**  For every `AnalysisTable` populated from any sequence of
checks with their data points and pass/fail flags, `resolve_correlations`
emits a `Correlation` for a property (path, user, or group) iff that
property's bucket contains at least one failed check and zero passed
checks, and the `Correlation`'s count equals the number of failed checks in
that bucket. -/
theorem resolve_correlations_spec {C : Type}
    (entries : List (C × List DataPoint × Bool)) (d : DataPoint) (n : Nat) :
    (⟨d, n⟩ : Correlation) ∈ (buildTable entries).resolve_correlations ↔
      (((buildTable entries).bucket d).passes = []
        ∧ ((buildTable entries).bucket d).fails ≠ []
        ∧ n = ((buildTable entries).bucket d).fails.length) := by
  obtain ⟨hp, hu, hg⟩ := buildTable_nodup (C := C) entries
  have hinjP : ∀ a b : FsPath, DataPoint.InvolvesPath a = DataPoint.InvolvesPath b → a = b := by
    intro a b hab; injection hab
  have hinjU : ∀ a b : Str, DataPoint.InvolvesUser a = DataPoint.InvolvesUser b → a = b := by
    intro a b hab; injection hab
  have hinjG : ∀ a b : Str, DataPoint.InvolvesGroup a = DataPoint.InvolvesGroup b → a = b := by
    intro a b hab; injection hab
  have hmemapp : ∀ c : Correlation,
      (c ∈ (buildTable entries).resolve_correlations ↔
        (c ∈ resolveIndex DataPoint.InvolvesPath (buildTable entries).paths
          ∨ c ∈ resolveIndex DataPoint.InvolvesUser (buildTable entries).users
          ∨ c ∈ resolveIndex DataPoint.InvolvesGroup (buildTable entries).groups)) := by
    intro c
    unfold AnalysisTable.resolve_correlations
    simp [List.mem_append, or_assoc]
  cases d with
  | InvolvesPath p =>
    rw [hmemapp]
    constructor
    · rintro (h | h | h)
      · exact (resolveIndex_mem DataPoint.InvolvesPath hinjP _ hp p n).1 h
      · exfalso
        obtain ⟨k, hk⟩ := resolveIndex_property DataPoint.InvolvesUser _ _ h
        simp at hk
      · exfalso
        obtain ⟨k, hk⟩ := resolveIndex_property DataPoint.InvolvesGroup _ _ h
        simp at hk
    · intro h
      exact Or.inl ((resolveIndex_mem DataPoint.InvolvesPath hinjP _ hp p n).2 h)
  | InvolvesUser u =>
    rw [hmemapp]
    constructor
    · rintro (h | h | h)
      · exfalso
        obtain ⟨k, hk⟩ := resolveIndex_property DataPoint.InvolvesPath _ _ h
        simp at hk
      · exact (resolveIndex_mem DataPoint.InvolvesUser hinjU _ hu u n).1 h
      · exfalso
        obtain ⟨k, hk⟩ := resolveIndex_property DataPoint.InvolvesGroup _ _ h
        simp at hk
    · intro h
      exact Or.inr (Or.inl
        ((resolveIndex_mem DataPoint.InvolvesUser hinjU _ hu u n).2 h))
  | InvolvesGroup g =>
    rw [hmemapp]
    constructor
    · rintro (h | h | h)
      · exfalso
        obtain ⟨k, hk⟩ := resolveIndex_property DataPoint.InvolvesPath _ _ h
        simp at hk
      · exfalso
        obtain ⟨k, hk⟩ := resolveIndex_property DataPoint.InvolvesUser _ _ h
        simp at hk
      · exact (resolveIndex_mem DataPoint.InvolvesGroup hinjG _ hg g n).1 h
    · intro h
      exact Or.inr (Or.inr
        ((resolveIndex_mem DataPoint.InvolvesGroup hinjG _ hg g n).2 h))

end Specsheet
